import Mathlib

/-!
Shallow embedding of the Nadanaloga portal server (src/server/server.js and
the serverless handlers under src/api/) for verification of its
family-resolution, access-control, content-distribution and billing logic.

Ids (Mongo ObjectIds) are modelled as `Nat`.  JavaScript strings that are
manipulated character by character (emails) are modelled as `List Char`;
strings that are only compared or concatenated stay `String`.
-/

namespace Nadanaloga

/-- Account roles, mirroring the `role` enum of the user schema. -/
inductive Role where
  | Student
  | Teacher
  | Admin
deriving DecidableEq, Repr

/-- A stored user account (the fields of the user schema that the verified
logic reads).  `isDeleted` is the soft-delete flag. -/
structure User where
  id : Nat
  email : List Char
  role : Role
  courses : List String := []
  isDeleted : Bool := false
deriving DecidableEq, Repr

/-- The authenticated session principal (`req.user` / `req.session.user`):
id, email and role taken from the JWT session. -/
structure Principal where
  id : Nat
  email : List Char
  role : Role
deriving DecidableEq, Repr

/-- JavaScript `String.prototype.split` with a single-character separator:
splits on every occurrence, keeping empty segments, and returns `[[]]` on
the empty string.  Always returns a non-empty list. -/
def splitOnChar (sep : Char) : List Char → List (List Char)
  | [] => [[]]
  | c :: rest =>
    match splitOnChar sep rest with
    | [] => [[]]
    | h :: t => if c = sep then [] :: h :: t else (c :: h) :: t

/-- Insertion into a JavaScript `Set` (membership test, append if absent). -/
def jsSetInsert {α : Type} [DecidableEq α] (l : List α) (x : α) : List α :=
  if x ∈ l then l else l ++ [x]

/-- `new Set(list)` — deduplication keeping first occurrences. -/
def jsSetOfList {α : Type} [DecidableEq α] (l : List α) : List α :=
  l.foldl jsSetInsert []

/-- Line terminators, the characters that `.` in a JavaScript regular
expression (without the `s` flag) does not match. -/
def isLineTerminator (c : Char) : Bool :=
  c = '\n' || c = '\r' || c = '\u2028' || c = '\u2029'

/-- One raw pattern character of the family regex against one candidate
character.  The escape step in the source,
`.replace(/[.*+?^${}()|[\\]\\\\]/g, '\\$&')`, is a no-op: the character
class of that regex literal ends at its first unescaped `]`, leaving a
pattern that only matches a metacharacter followed by `\\]`, which no
email contains.  The base and domain are therefore injected RAW into
`^base(\+.+)?@domain$`, and `'.'` — the one metacharacter that occurs in
real emails — acts as the regex wildcard, matching any
non-line-terminator.  Every other character is modelled as matching
itself; theorems about the resolver's extension restrict the base and
domain to be free of the remaining metacharacters (`isUnmodeledMeta`),
where this model is exact. -/
def patCharMatch (pc c : Char) : Bool :=
  if pc = '.' then !isLineTerminator c else pc = c

/-- Pointwise match of a raw pattern fragment against a candidate: each
pattern character consumes exactly one candidate character. -/
def patMatch : List Char → List Char → Bool
  | [], [] => true
  | pc :: ps, c :: cs => patCharMatch pc c && patMatch ps cs
  | _, _ => false

/-- The regex metacharacters other than `'.'` (the two brace characters
are written as their code points 123 and 125).  Raw fragments containing
none of these have exactly the `patMatch` semantics, and building the
regex from them cannot throw. -/
def isUnmodeledMeta (c : Char) : Bool :=
  c = '*' || c = '+' || c = '?' || c = '^' || c = '$' || c = '(' || c = ')' ||
  c = '|' || c = '[' || c = ']' || c = '\\' || c.toNat = 123 || c.toNat = 125

/-- Acceptance of `rest` by the regex fragment `\+.+@domain$` after the
leading `+` has been consumed: a non-empty tag of non-line-terminator
characters followed by a literal `'@'` and a match of the raw `domain`
fragment. -/
def tagSuffixMatch (rest domain : List Char) : Bool :=
  decide (domain.length + 1 < rest.length) &&
  patMatch ('@' :: domain) (rest.drop (rest.length - (domain.length + 1))) &&
  (rest.take (rest.length - (domain.length + 1))).all (fun c => !isLineTerminator c)

/-- Acceptance of a stored email by the family regex
`^base(\+.+)?@domain$` built with the `i` flag from the RAW (unescaped)
base and domain fragments; the candidate is case-folded.  Because every
fragment character consumes exactly one candidate character and `.+`
consumes the rest, the split positions are determined by the lengths. -/
def familyEmailMatch (base domain email : List Char) : Bool :=
  let t := email.map Char.toLower
  patMatch (base ++ '@' :: domain) t ||
  (patMatch (base ++ ['+']) (t.take (base.length + 1)) &&
   tagSuffixMatch (t.drop (base.length + 1)) domain)

/-- `loggedInEmail.split('@')` applied to the lower-cased email. -/
def emailParts (email : List Char) : List (List Char) :=
  splitOnChar '@' (email.map Char.toLower)

/-- `emailParts[0].split('+')[0]` — the base username before any `+tag`. -/
def emailBase (email : List Char) : List Char :=
  (splitOnChar '+' ((emailParts email).headD [])).headD []

/-- `emailParts[1]` — the domain part used to build the family regex. -/
def emailDomain (email : List Char) : List Char :=
  ((emailParts email).get? 1).getD []

/-- `getFamilyMemberIds` (server.js, both server variants): Teacher
principals resolve to themselves; otherwise the lower-cased email is split
at `'@'`; with no `'@'` the principal resolves to itself; otherwise all
Student accounts whose email matches `^base(\+.+)?@domain$` (case
insensitively) are collected into a set and the principal's own id is
added.  The query has no `isDeleted` filter. -/
def getFamilyMemberIds (store : List User) (p : Principal) : List Nat :=
  if p.role = Role.Teacher then [p.id]
  else if (emailParts p.email).length < 2 then [p.id]
  else
    jsSetInsert
      (jsSetOfList
        ((store.filter
          (fun u =>
            u.role = Role.Student &&
              familyEmailMatch (emailBase p.email) (emailDomain p.email) u.email)).map
          (fun u => u.id)))
      p.id

example : getFamilyMemberIds
    [⟨2, "mom+kid@x.com".data, Role.Student, [], false⟩,
     ⟨3, "other@y.com".data, Role.Student, [], false⟩]
    ⟨1, "mom@x.com".data, Role.Student⟩ = [2, 1] := by decide

example : getFamilyMemberIds [] ⟨1, "nomail".data, Role.Student⟩ = [1] := by decide

example : getFamilyMemberIds
    [⟨9, "mom@xzcom".data, Role.Student, [], false⟩]
    ⟨1, "mom@x.com".data, Role.Student⟩ = [9, 1] := by decide

/-! ### Character and split lemmas -/

theorem char_toNat_ofNat_valid (m : Nat) (h : m.isValidChar) : (Char.ofNat m).toNat = m := by
  unfold Char.ofNat
  rw [dif_pos h]
  unfold Char.ofNatAux Char.toNat
  simp [UInt32.toNat, BitVec.ofNatLt]

/-- `Char.toLower` is injective at characters below code point 65: it can
only produce such a character from itself. -/
theorem toLower_eq_low_iff (c d : Char) (hd : d.toNat < 65) : c.toLower = d ↔ c = d := by
  unfold Char.toLower
  by_cases hg : c.toNat ≥ 65 ∧ c.toNat ≤ 90
  · rw [if_pos hg]
    constructor
    · intro h
      exfalso
      have h2 := congrArg Char.toNat h
      rw [char_toNat_ofNat_valid (c.toNat + 32) (Or.inl (by omega))] at h2
      omega
    · intro h
      exfalso
      have : c.toNat = d.toNat := by rw [h]
      omega
  · rw [if_neg hg]

theorem mem_map_toLower_low {c : Char} (hc : c.toNat < 65) (l : List Char) :
    c ∈ l.map Char.toLower ↔ c ∈ l := by
  rw [List.mem_map]
  constructor
  · rintro ⟨a, ha, he⟩
    rwa [(toLower_eq_low_iff a c hc).mp he] at ha
  · intro h
    exact ⟨c, h, (toLower_eq_low_iff c c hc).mpr rfl⟩

theorem splitOnChar_ne_nil (sep : Char) : ∀ l, splitOnChar sep l ≠ []
  | [] => by simp [splitOnChar]
  | c :: rest => by
    have ih := splitOnChar_ne_nil sep rest
    unfold splitOnChar
    cases h : splitOnChar sep rest with
    | nil => exact absurd h ih
    | cons a b =>
      by_cases hc : c = sep <;> simp [hc]

theorem splitOnChar_of_not_mem {sep : Char} : ∀ {l}, sep ∉ l → splitOnChar sep l = [l]
  | [], _ => rfl
  | c :: rest, h => by
    have hc : c ≠ sep := fun e => h (e ▸ List.mem_cons_self c rest)
    have ih := splitOnChar_of_not_mem (l := rest) (fun hm => h (List.mem_cons_of_mem _ hm))
    unfold splitOnChar
    rw [ih]
    simp [hc]

theorem splitOnChar_append {sep : Char} :
    ∀ (pre rest : List Char), sep ∉ pre →
      splitOnChar sep (pre ++ sep :: rest) = pre :: splitOnChar sep rest
  | [], rest, _ => by
    simp only [List.nil_append]
    conv_lhs => unfold splitOnChar
    cases h : splitOnChar sep rest with
    | nil => exact absurd h (splitOnChar_ne_nil sep rest)
    | cons a b => simp
  | c :: pre, rest, h => by
    have hc : c ≠ sep := fun e => h (e ▸ List.mem_cons_self c pre)
    have ih := splitOnChar_append pre rest (fun hm => h (List.mem_cons_of_mem _ hm))
    show splitOnChar sep (c :: (pre ++ sep :: rest)) = _
    conv_lhs => unfold splitOnChar
    rw [ih]
    simp [hc]

theorem exists_first_split {sep : Char} : ∀ {l : List Char}, sep ∈ l →
    ∃ pre post, l = pre ++ sep :: post ∧ sep ∉ pre
  | c :: rest, h => by
    by_cases hc : c = sep
    · exact ⟨[], rest, by simp [hc], by simp⟩
    · have hr : sep ∈ rest := by
        cases List.mem_cons.mp h with
        | inl e => exact absurd e.symm hc
        | inr m => exact m
      obtain ⟨pre, post, he, hp⟩ := exists_first_split hr
      refine ⟨c :: pre, post, by rw [he]; rfl, ?_⟩
      intro hm
      cases List.mem_cons.mp hm with
      | inl e => exact hc e.symm
      | inr m => exact hp m

/-! ### JS `Set` lemmas -/

theorem mem_jsSetInsert {α : Type} [DecidableEq α] {l : List α} {x y : α} :
    y ∈ jsSetInsert l x ↔ y ∈ l ∨ y = x := by
  unfold jsSetInsert
  split
  · rename_i h
    constructor
    · exact Or.inl
    · rintro (h' | rfl)
      · exact h'
      · exact h
  · simp

theorem self_mem_jsSetInsert {α : Type} [DecidableEq α] (l : List α) (x : α) :
    x ∈ jsSetInsert l x :=
  mem_jsSetInsert.mpr (Or.inr rfl)

theorem mem_foldl_jsSetInsert {α : Type} [DecidableEq α] (y : α) :
    ∀ (l acc : List α), y ∈ l.foldl jsSetInsert acc ↔ y ∈ acc ∨ y ∈ l
  | [], acc => by simp
  | c :: rest, acc => by
    rw [List.foldl_cons, mem_foldl_jsSetInsert y rest (jsSetInsert acc c), mem_jsSetInsert]
    simp
    tauto

theorem mem_jsSetOfList {α : Type} [DecidableEq α] {l : List α} {y : α} :
    y ∈ jsSetOfList l ↔ y ∈ l := by
  unfold jsSetOfList
  rw [mem_foldl_jsSetInsert]
  simp

/-! ### Raw-pattern match lemmas -/

theorem patMatch_nil_left (s : List Char) : patMatch [] s = true ↔ s = [] := by
  cases s <;> simp [patMatch]

theorem patMatch_length : ∀ {pat s : List Char}, patMatch pat s = true →
    pat.length = s.length
  | [], [], _ => rfl
  | [], _ :: _, h => by simp [patMatch] at h
  | _ :: _, [], h => by simp [patMatch] at h
  | p :: ps, c :: cs, h => by
    simp only [patMatch, Bool.and_eq_true] at h
    simp only [List.length_cons, patMatch_length h.2]

theorem patMatch_cons_iff (p : Char) (ps s : List Char) :
    patMatch (p :: ps) s = true ↔
      ∃ c cs, s = c :: cs ∧ patCharMatch p c = true ∧ patMatch ps cs = true := by
  cases s with
  | nil => simp [patMatch]
  | cons c cs =>
    simp only [patMatch, Bool.and_eq_true]
    constructor
    · rintro ⟨h1, h2⟩
      exact ⟨c, cs, rfl, h1, h2⟩
    · rintro ⟨c', cs', he, h1, h2⟩
      cases he
      exact ⟨h1, h2⟩

theorem patCharMatch_lit {pc c : Char} (h : pc ≠ '.') :
    patCharMatch pc c = true ↔ c = pc := by
  unfold patCharMatch
  rw [if_neg h]
  simp [eq_comm]

theorem patMatch_append_iff : ∀ (p1 p2 s : List Char),
    patMatch (p1 ++ p2) s = true ↔
      ∃ s1 s2, s = s1 ++ s2 ∧ patMatch p1 s1 = true ∧ patMatch p2 s2 = true
  | [], p2, s => by
    simp only [List.nil_append]
    constructor
    · intro h
      exact ⟨[], s, rfl, rfl, h⟩
    · rintro ⟨s1, s2, he, h1, h2⟩
      rw [(patMatch_nil_left s1).mp h1] at he
      rw [he]
      exact h2
  | p :: ps, p2, s => by
    rw [List.cons_append, patMatch_cons_iff]
    constructor
    · rintro ⟨c, cs, rfl, hc, hm⟩
      obtain ⟨s1, s2, rfl, h1, h2⟩ := (patMatch_append_iff ps p2 cs).mp hm
      exact ⟨c :: s1, s2, rfl,
        (patMatch_cons_iff p ps (c :: s1)).mpr ⟨c, s1, rfl, hc, h1⟩, h2⟩
    · rintro ⟨s1, s2, he, h1, h2⟩
      obtain ⟨c, cs1, rfl, hc, hm1⟩ := (patMatch_cons_iff p ps s1).mp h1
      refine ⟨c, cs1 ++ s2, by rw [he, List.cons_append], hc, ?_⟩
      exact (patMatch_append_iff ps p2 (cs1 ++ s2)).mpr ⟨cs1, s2, rfl, hm1, h2⟩

theorem patMatch_singleton_iff {p : Char} (hp : p ≠ '.') (s : List Char) :
    patMatch [p] s = true ↔ s = [p] := by
  rw [patMatch_cons_iff]
  constructor
  · rintro ⟨c, cs, rfl, hc, hm⟩
    rw [(patMatch_nil_left cs).mp hm, (patCharMatch_lit hp).mp hc]
  · rintro rfl
    exact ⟨p, [], rfl, (patCharMatch_lit hp).mpr rfl, rfl⟩

/-! ### Structural characterization of the family regex -/

/-- `familyEmailMatch base domain email` holds exactly when the
case-folded email decomposes as `s1 ++ '@' :: s2` with `s1`/`s2` matching
the raw `base`/`domain` fragments, or as `s1 ++ '+' :: (tag ++ '@' :: s2)`
with a non-empty tag free of line terminators. -/
theorem familyEmailMatch_iff (base domain email : List Char) :
    familyEmailMatch base domain email = true ↔
      (∃ s1 s2, email.map Char.toLower = s1 ++ '@' :: s2 ∧
        patMatch base s1 = true ∧ patMatch domain s2 = true) ∨
      (∃ s1 tag s2, email.map Char.toLower = s1 ++ '+' :: (tag ++ '@' :: s2) ∧
        patMatch base s1 = true ∧ tag ≠ [] ∧
        (∀ c ∈ tag, isLineTerminator c = false) ∧
        patMatch domain s2 = true) := by
  simp only [familyEmailMatch, tagSuffixMatch, Bool.or_eq_true, Bool.and_eq_true,
    decide_eq_true_eq, List.all_eq_true, Bool.not_eq_true']
  constructor
  · rintro (h | ⟨htake, ⟨⟨hlen, hdrop⟩, hall⟩⟩)
    · left
      obtain ⟨s1, s2', he, h1, h2⟩ :=
        (patMatch_append_iff base ('@' :: domain) _).mp h
      obtain ⟨c, cs, he2, hc, hm⟩ := (patMatch_cons_iff '@' domain s2').mp h2
      refine ⟨s1, cs, ?_, h1, hm⟩
      rw [he, he2, (patCharMatch_lit (by decide) (c := c)).mp hc]
    · right
      set t := email.map Char.toLower with ht
      set rest := t.drop (base.length + 1) with hrest
      set k := rest.length - (domain.length + 1) with hk
      obtain ⟨s1, s1', hteq, hb, hplus⟩ :=
        (patMatch_append_iff base ['+'] _).mp htake
      have hs1' : s1' = ['+'] := (patMatch_singleton_iff (by decide) s1').mp hplus
      subst hs1'
      obtain ⟨c, cs, he2, hc, hm⟩ := (patMatch_cons_iff '@' domain _).mp hdrop
      have hceq : c = '@' := (patCharMatch_lit (by decide)).mp hc
      refine ⟨s1, rest.take k, cs, ?_, hb, ?_, hall, hm⟩
      · conv_lhs => rw [← List.take_append_drop (base.length + 1) t]
        rw [hteq]
        conv_lhs => rw [← hrest, ← List.take_append_drop k rest]
        rw [he2, hceq]
        simp
      · have hl : (rest.take k).length = k := by
          rw [List.length_take, Nat.min_eq_left (by omega)]
        intro hnil
        rw [hnil] at hl
        simp only [List.length_nil] at hl
        omega
  · rintro (⟨s1, s2, he, h1, h2⟩ | ⟨s1, tag, s2, he, h1, htag, hall, h2⟩)
    · left
      rw [he]
      exact (patMatch_append_iff base ('@' :: domain) _).mpr
        ⟨s1, '@' :: s2, rfl, h1,
          (patMatch_cons_iff '@' domain ('@' :: s2)).mpr
            ⟨'@', s2, rfl, (patCharMatch_lit (by decide)).mpr rfl, h2⟩⟩
    · right
      have hlb : base.length = s1.length := patMatch_length h1
      have hld : domain.length = s2.length := patMatch_length h2
      have hsplit : email.map Char.toLower =
          (s1 ++ ['+']) ++ (tag ++ '@' :: s2) := by
        rw [he]
        simp
      have hlenb : (s1 ++ ['+']).length = base.length + 1 := by simp [hlb]
      have htake : (email.map Char.toLower).take (base.length + 1) =
          s1 ++ ['+'] := by
        rw [hsplit, List.take_left' hlenb]
      have hdrop : (email.map Char.toLower).drop (base.length + 1) =
          tag ++ '@' :: s2 := by
        rw [hsplit, List.drop_left' hlenb]
      have htg : 0 < tag.length := List.length_pos.mpr htag
      have hc : (tag ++ '@' :: s2).length - (domain.length + 1) = tag.length := by
        simp only [List.length_append, List.length_cons]
        omega
      refine ⟨?_, ⟨⟨?_, ?_⟩, ?_⟩⟩
      · rw [htake]
        exact (patMatch_append_iff base ['+'] _).mpr
          ⟨s1, ['+'], rfl, h1, (patMatch_singleton_iff (by decide) _).mpr rfl⟩
      · rw [hdrop]
        simp only [List.length_append, List.length_cons]
        omega
      · rw [hdrop, hc, List.drop_left]
        exact (patMatch_cons_iff '@' domain _).mpr
          ⟨'@', s2, rfl, (patCharMatch_lit (by decide)).mpr rfl, h2⟩
      · rw [hdrop, hc, List.take_left]
        exact hall

/-! ### Lemmas about the email parse -/

theorem emailParts_of_no_at {email : List Char} (h : '@' ∉ email) :
    emailParts email = [email.map Char.toLower] := by
  unfold emailParts
  exact splitOnChar_of_not_mem
    (fun hm => h ((mem_map_toLower_low (by decide) email).mp hm))

theorem two_le_emailParts_length {email : List Char} (h : '@' ∈ email) :
    2 ≤ (emailParts email).length := by
  have hl : '@' ∈ email.map Char.toLower :=
    (mem_map_toLower_low (by decide) email).mpr h
  obtain ⟨pre, post, he, hp⟩ := exists_first_split hl
  unfold emailParts
  rw [he, splitOnChar_append pre post hp]
  have := List.length_pos.mpr (splitOnChar_ne_nil '@' post)
  simp only [List.length_cons]
  omega

theorem emailParts_append_base {u d : List Char} (hu : '@' ∉ u) :
    emailParts (u ++ '@' :: d) =
      u.map Char.toLower :: splitOnChar '@' (d.map Char.toLower) := by
  unfold emailParts
  have hat : Char.toLower '@' = '@' := by decide
  rw [List.map_append, List.map_cons, hat]
  exact splitOnChar_append _ _ (fun hm => hu ((mem_map_toLower_low (by decide) u).mp hm))

theorem emailParts_append_tag {u t d : List Char} (hu : '@' ∉ u) (ht : '@' ∉ t) :
    emailParts (u ++ '+' :: (t ++ '@' :: d)) =
      (u.map Char.toLower ++ '+' :: t.map Char.toLower) ::
        splitOnChar '@' (d.map Char.toLower) := by
  have hsh : u ++ '+' :: (t ++ '@' :: d) = (u ++ '+' :: t) ++ '@' :: d := by
    simp
  rw [hsh, emailParts_append_base ?hno]
  case hno =>
    intro hm
    rcases List.mem_append.mp hm with h1 | h2
    · exact hu h1
    · rcases List.mem_cons.mp h2 with h3 | h4
      · exact absurd h3 (by decide)
      · exact ht h4
  rw [List.map_append, List.map_cons]
  have : Char.toLower '+' = '+' := by decide
  rw [this]

theorem emailBase_append_base {u d : List Char} (hu : '@' ∉ u) (hp : '+' ∉ u) :
    emailBase (u ++ '@' :: d) = u.map Char.toLower := by
  unfold emailBase
  rw [emailParts_append_base hu]
  simp only [List.headD_cons]
  rw [splitOnChar_of_not_mem
    (fun hm => hp ((mem_map_toLower_low (by decide) u).mp hm))]
  rfl

theorem emailBase_append_tag {u t d : List Char} (hu : '@' ∉ u) (ht : '@' ∉ t)
    (hp : '+' ∉ u) :
    emailBase (u ++ '+' :: (t ++ '@' :: d)) = u.map Char.toLower := by
  unfold emailBase
  rw [emailParts_append_tag hu ht]
  simp only [List.headD_cons]
  rw [splitOnChar_append _ _
    (fun hm => hp ((mem_map_toLower_low (by decide) u).mp hm))]
  rfl

theorem emailDomain_append_base {u d : List Char} (hu : '@' ∉ u) :
    emailDomain (u ++ '@' :: d) =
      ((splitOnChar '@' (d.map Char.toLower)).get? 0).getD [] := by
  unfold emailDomain
  rw [emailParts_append_base hu]
  rfl

theorem emailDomain_append_tag {u t d : List Char} (hu : '@' ∉ u) (ht : '@' ∉ t) :
    emailDomain (u ++ '+' :: (t ++ '@' :: d)) =
      ((splitOnChar '@' (d.map Char.toLower)).get? 0).getD [] := by
  unfold emailDomain
  rw [emailParts_append_tag hu ht]
  rfl

/-! ### Claim C5 -/

/-- C5: for every principal, the principal's own id is a member of the
resolved family, and a principal whose email contains no `'@'` resolves to
exactly the singleton of their own id — the resolver does not fail on
malformed emails. -/
theorem getFamilyMemberIds_contains_self (store : List User) (p : Principal) :
    p.id ∈ getFamilyMemberIds store p ∧
      ('@' ∉ p.email → getFamilyMemberIds store p = [p.id]) := by
  constructor
  · unfold getFamilyMemberIds
    by_cases hr : p.role = Role.Teacher
    · rw [if_pos hr]
      exact List.mem_singleton.mpr rfl
    · rw [if_neg hr]
      by_cases hp : (emailParts p.email).length < 2
      · rw [if_pos hp]
        exact List.mem_singleton.mpr rfl
      · rw [if_neg hp]
        exact self_mem_jsSetInsert _ _
  · intro hat
    unfold getFamilyMemberIds
    by_cases hr : p.role = Role.Teacher
    · rw [if_pos hr]
    · rw [if_neg hr, if_pos (by rw [emailParts_of_no_at hat]; simp)]

/-- Witness for C5 at a concrete malformed-email principal. -/
theorem getFamilyMemberIds_contains_self_witness :
    5 ∈ getFamilyMemberIds [] ⟨5, "nomail".data, Role.Student⟩ ∧
      getFamilyMemberIds [] ⟨5, "nomail".data, Role.Student⟩ = [5] :=
  ⟨(getFamilyMemberIds_contains_self [] ⟨5, "nomail".data, Role.Student⟩).1,
   (getFamilyMemberIds_contains_self [] ⟨5, "nomail".data, Role.Student⟩).2 (by decide)⟩

/-! ### Claim C8 -/

/-- C8: with a fixed store, family resolution for a Student principal is
invariant under appending or removing a `+tag` suffix on the querying
principal's email (base local part free of `'+'` and `'@'`, tag free of
`'@'`). -/
theorem getFamilyMemberIds_tag_invariant (store : List User) (pid : Nat)
    (u t d : List Char) (hp : '+' ∉ u) (hu : '@' ∉ u) (ht : '@' ∉ t) :
    getFamilyMemberIds store ⟨pid, u ++ '+' :: (t ++ '@' :: d), Role.Student⟩ =
      getFamilyMemberIds store ⟨pid, u ++ '@' :: d, Role.Student⟩ := by
  unfold getFamilyMemberIds
  have hne : ¬ (Role.Student = Role.Teacher) := by decide
  have hlen := List.length_pos.mpr (splitOnChar_ne_nil '@' (d.map Char.toLower))
  rw [if_neg hne, if_neg hne,
    if_neg (by rw [emailParts_append_tag hu ht]; simp only [List.length_cons]; omega),
    if_neg (by rw [emailParts_append_base hu]; simp only [List.length_cons]; omega),
    emailBase_append_tag hu ht hp, emailBase_append_base hu hp,
    emailDomain_append_tag hu ht, emailDomain_append_base hu]

/-- Witness for C8 at a concrete store and email pair. -/
theorem getFamilyMemberIds_tag_invariant_witness :
    getFamilyMemberIds [⟨2, "mom+a@x.com".data, Role.Student, [], false⟩]
        ⟨1, "mom+kid@x.com".data, Role.Student⟩ =
      getFamilyMemberIds [⟨2, "mom+a@x.com".data, Role.Student, [], false⟩]
        ⟨1, "mom@x.com".data, Role.Student⟩ :=
  getFamilyMemberIds_tag_invariant
    [⟨2, "mom+a@x.com".data, Role.Student, [], false⟩] 1
    "mom".data "kid".data "x.com".data (by decide) (by decide) (by decide)

/-! ### Claim C3 -/

/-- C3 counterexample: (a) a soft-deleted Student whose email matches the
family pattern IS returned by the resolver (the query has no `isDeleted`
filter), contradicting "soft-deleted accounts are never members"; (b) a
non-deleted Student whose email `mom+@x.com` equals the principal's base
identity after stripping the `+tag` (empty tag) is NOT returned, because
the regex `(\+.+)?` requires a non-empty tag; (c) a Student whose email
`mom@xzcom` does NOT equal the base identity at the same domain IS
returned, because the un-escaped `'.'` of the domain `x.com` acts as a
wildcard in the family regex. -/
theorem getFamilyMemberIds_softDeleted_cex :
    (7 ∈ getFamilyMemberIds
        [⟨7, "mom@x.com".data, Role.Student, [], true⟩]
        ⟨1, "mom@x.com".data, Role.Student⟩ ∧
      ∀ u ∈ [(⟨7, "mom@x.com".data, Role.Student, [], true⟩ : User)], u.isDeleted = true) ∧
    (3 ∉ getFamilyMemberIds
        [⟨3, "mom+@x.com".data, Role.Student, [], false⟩]
        ⟨1, "mom@x.com".data, Role.Student⟩ ∧
      emailBase "mom+@x.com".data = emailBase "mom@x.com".data ∧
      emailDomain "mom+@x.com".data = emailDomain "mom@x.com".data) ∧
    (9 ∈ getFamilyMemberIds
        [⟨9, "mom@xzcom".data, Role.Student, [], false⟩]
        ⟨1, "mom@x.com".data, Role.Student⟩ ∧
      emailDomain "mom@xzcom".data ≠ emailDomain "mom@x.com".data) := by
  decide

/-- C3 (amended): for a Student principal whose email contains `'@'` and
whose parsed base and domain are free of regex metacharacters other than
`'.'` (the region where the raw-fragment model is exact and the regex
construction cannot throw), the resolved family is exactly the
principal's own id together with the ids of all stored Student accounts —
soft-deleted or not — whose case-folded email decomposes as
`s1 ++ '@' :: s2` or `s1 ++ '+' :: (tag ++ '@' :: s2)` (tag non-empty and
free of line terminators) with `s1`/`s2` matching the RAW base/domain
fragments, in which `'.'` acts as a single-character wildcard because the
escape step of the source is a no-op. -/
theorem getFamilyMemberIds_membership (store : List User) (p : Principal) (x : Nat)
    (hrole : p.role = Role.Student) (hat : '@' ∈ p.email)
    (hmb : ∀ c ∈ emailBase p.email, isUnmodeledMeta c = false)
    (hmd : ∀ c ∈ emailDomain p.email, isUnmodeledMeta c = false) :
    x ∈ getFamilyMemberIds store p ↔
      x = p.id ∨ ∃ u ∈ store, u.role = Role.Student ∧ u.id = x ∧
        ((∃ s1 s2, u.email.map Char.toLower = s1 ++ '@' :: s2 ∧
            patMatch (emailBase p.email) s1 = true ∧
            patMatch (emailDomain p.email) s2 = true) ∨
         (∃ s1 tag s2,
            u.email.map Char.toLower = s1 ++ '+' :: (tag ++ '@' :: s2) ∧
            patMatch (emailBase p.email) s1 = true ∧ tag ≠ [] ∧
            (∀ c ∈ tag, isLineTerminator c = false) ∧
            patMatch (emailDomain p.email) s2 = true)) := by
  unfold getFamilyMemberIds
  rw [if_neg (by rw [hrole]; decide),
    if_neg (by have := two_le_emailParts_length hat; omega),
    mem_jsSetInsert, mem_jsSetOfList]
  simp only [List.mem_map, List.mem_filter, Bool.and_eq_true, decide_eq_true_eq]
  constructor
  · rintro (⟨u, ⟨⟨hu, hrol, hm⟩, hid⟩⟩ | rfl)
    · exact Or.inr ⟨u, hu, hrol, hid, (familyEmailMatch_iff _ _ _).mp hm⟩
    · exact Or.inl rfl
  · rintro (rfl | ⟨u, hu, hrol, hid, hm⟩)
    · exact Or.inr rfl
    · exact Or.inl ⟨u, ⟨⟨hu, hrol, (familyEmailMatch_iff _ _ _).mpr hm⟩, hid⟩⟩

/-- Witness for the amended C3 at a concrete store and principal. -/
theorem getFamilyMemberIds_membership_witness :
    7 ∈ getFamilyMemberIds
        [⟨7, "mom+kid@x.com".data, Role.Student, [], true⟩]
        ⟨1, "mom@x.com".data, Role.Student⟩ :=
  (getFamilyMemberIds_membership
      [⟨7, "mom+kid@x.com".data, Role.Student, [], true⟩]
      ⟨1, "mom@x.com".data, Role.Student⟩ 7 rfl (by decide) (by decide) (by decide)).mpr
    (Or.inr ⟨⟨7, "mom+kid@x.com".data, Role.Student, [], true⟩, by decide, rfl, rfl,
      Or.inr ⟨"mom".data, "kid".data, "x.com".data, by decide, by decide, by decide,
        by decide, by decide⟩⟩)

/-! ### Content distribution (`POST /api/admin/content/send`) -/

/-- The four content variants (`Models = { Event, GradeExam, BookMaterial,
Notice }`). -/
inductive ContentType where
  | event
  | gradeExam
  | bookMaterial
  | notice
deriving DecidableEq, Repr

/-- A content item: id, variant, and its persisted `recipientIds` set. -/
structure ContentItem where
  id : Nat
  ctype : ContentType
  recipientIds : List Nat
deriving DecidableEq, Repr

/-- A persisted Notification record (`userId`, `subject`, `message`,
`read` defaulting to false). -/
structure NotificationRec where
  id : Nat
  userId : Nat
  subject : String
  message : String
  read : Bool := false
deriving DecidableEq, Repr

/-- The request body of `/api/admin/content/send`. -/
structure SendRequest where
  contentId : Nat
  contentType : ContentType
  userIds : List Nat
  subject : String
  message : String
deriving DecidableEq, Repr

inductive SendResp where
  | badRequest (msg : String)
  | ok (notified : Nat)
deriving DecidableEq, Repr

/-- The store touched by content assignment. -/
structure SendState where
  users : List User
  contents : List ContentItem
  notifications : List NotificationRec
deriving DecidableEq, Repr

/-- Mongo `$addToSet: { recipientIds: { $each: xs } }`: append each absent
element in order. -/
def addToSetEach (l xs : List Nat) : List Nat :=
  xs.foldl jsSetInsert l

/-- `findByIdAndUpdate`-style update: rewrite the first matching document,
leave the rest untouched. -/
def updateFirst {α : Type} (pred : α → Bool) (f : α → α) : List α → List α
  | [] => []
  | c :: rest => if pred c then f c :: rest else c :: updateFirst pred f rest

/-- The document selector of `Model.findByIdAndUpdate(contentId, ...)`
within the collection of the requested variant. -/
def contentPred (req : SendRequest) (c : ContentItem) : Bool :=
  c.id == req.contentId && c.ctype == req.contentType

/-- `User.find({ _id: { $in: userIds } })` — existing accounts among the
requested recipients (no `isDeleted` filter in the route). -/
def foundUsers (st : SendState) (req : SendRequest) : List User :=
  st.users.filter (fun u => req.userIds.contains u.id)

/-- The `Notification.insertMany` documents: one record per found user,
with Mongo-assigned fresh ids modelled as `freshId + position`. -/
def newNotifications (st : SendState) (req : SendRequest) (freshId : Nat) :
    List NotificationRec :=
  (foundUsers st req).enum.map
    (fun iu => { id := freshId + iu.1, userId := iu.2.id,
                 subject := req.subject, message := req.message })

/-- `POST /api/admin/content/send` (server.js:2218): reject an empty
recipient list; otherwise `$addToSet` the requested ids into the content
item's recipient set (a no-op when the content id does not exist — the
result of `findByIdAndUpdate` is never checked), insert one Notification
per *existing* account among the ids, and report success with the count of
existing accounts.  Mail and WhatsApp dispatch are best-effort side
effects outside the persisted state. -/
def assign (st : SendState) (req : SendRequest) (freshId : Nat) :
    SendState × SendResp :=
  if req.userIds.isEmpty then
    (st, SendResp.badRequest "Content ID, type, and recipient IDs are required.")
  else
    ({ st with
        contents := updateFirst (contentPred req)
          (fun c => { c with recipientIds := addToSetEach c.recipientIds req.userIds })
          st.contents,
        notifications := st.notifications ++ newNotifications st req freshId },
     SendResp.ok (foundUsers st req).length)

example :
    (assign ⟨[⟨1, "kid@x.com".data, Role.Student, [], false⟩],
             [⟨5, ContentType.event, []⟩], []⟩
      ⟨5, ContentType.event, [1, 99], "s", "m"⟩ 100) =
    (⟨[⟨1, "kid@x.com".data, Role.Student, [], false⟩],
      [⟨5, ContentType.event, [1, 99]⟩],
      [⟨100, 1, "s", "m", false⟩]⟩, SendResp.ok 1) := by decide

/-! ### `updateFirst` and `addToSetEach` lemmas -/

theorem updateFirst_eq_of_no_match {α : Type} {pred : α → Bool} {f : α → α} :
    ∀ {l : List α}, (∀ c ∈ l, pred c = false) → updateFirst pred f l = l
  | [], _ => rfl
  | c :: rest, h => by
    unfold updateFirst
    rw [h c (List.mem_cons_self c rest)]
    simp only [Bool.false_eq_true, if_false]
    rw [updateFirst_eq_of_no_match (fun x hx => h x (List.mem_cons_of_mem _ hx))]

theorem find?_updateFirst {α : Type} {pred : α → Bool} {f : α → α}
    (hf : ∀ c, pred (f c) = pred c) :
    ∀ (l : List α), (updateFirst pred f l).find? pred = (l.find? pred).map f
  | [] => rfl
  | c :: rest => by
    unfold updateFirst
    by_cases hc : pred c = true
    · rw [if_pos hc, List.find?_cons_of_pos _ ((hf c).trans hc),
        List.find?_cons_of_pos _ hc]
      rfl
    · have hc' : pred c = false := by
        cases h : pred c
        · rfl
        · exact absurd h hc
      rw [if_neg (by simp [hc']), List.find?_cons_of_neg _ (by simp [hc']),
        List.find?_cons_of_neg _ (by simp [hc'])]
      exact find?_updateFirst hf rest

theorem updateFirst_cons {α : Type} (pred : α → Bool) (f : α → α) (c : α)
    (rest : List α) :
    updateFirst pred f (c :: rest) =
      if pred c = true then f c :: rest else c :: updateFirst pred f rest := rfl

theorem updateFirst_updateFirst {α : Type} {pred : α → Bool} {f g : α → α}
    (hf : ∀ c, pred (f c) = pred c) :
    ∀ (l : List α), updateFirst pred g (updateFirst pred f l) =
      updateFirst pred (fun c => g (f c)) l
  | [] => rfl
  | c :: rest => by
    by_cases hc : pred c = true
    · have e1 : updateFirst pred f (c :: rest) = f c :: rest := by
        rw [updateFirst_cons, if_pos hc]
      have e2 : updateFirst pred g (f c :: rest) = g (f c) :: rest := by
        rw [updateFirst_cons, if_pos ((hf c).trans hc)]
      have e3 : updateFirst pred (fun x => g (f x)) (c :: rest) = g (f c) :: rest := by
        rw [updateFirst_cons, if_pos hc]
      rw [e1, e2, e3]
    · have e1 : updateFirst pred f (c :: rest) = c :: updateFirst pred f rest := by
        rw [updateFirst_cons, if_neg hc]
      have e2 : updateFirst pred g (c :: updateFirst pred f rest) =
          c :: updateFirst pred g (updateFirst pred f rest) := by
        rw [updateFirst_cons, if_neg hc]
      have e3 : updateFirst pred (fun x => g (f x)) (c :: rest) =
          c :: updateFirst pred (fun x => g (f x)) rest := by
        rw [updateFirst_cons, if_neg hc]
      rw [e1, e2, e3, updateFirst_updateFirst hf rest]

theorem updateFirst_congr {α : Type} {pred : α → Bool} {f g : α → α} :
    ∀ {l : List α}, (∀ c ∈ l, f c = g c) →
      updateFirst pred f l = updateFirst pred g l
  | [], _ => rfl
  | c :: rest, h => by
    unfold updateFirst
    rw [h c (List.mem_cons_self c rest),
      updateFirst_congr (fun x hx => h x (List.mem_cons_of_mem _ hx))]

theorem mem_addToSetEach {l xs : List Nat} {y : Nat} :
    y ∈ addToSetEach l xs ↔ y ∈ l ∨ y ∈ xs := by
  unfold addToSetEach
  rw [mem_foldl_jsSetInsert]

theorem addToSetEach_of_subset : ∀ {xs l : List Nat}, (∀ x ∈ xs, x ∈ l) →
    addToSetEach l xs = l
  | [], _, _ => rfl
  | x :: rest, l, h => by
    unfold addToSetEach
    rw [List.foldl_cons]
    have hx : jsSetInsert l x = l := by
      unfold jsSetInsert
      rw [if_pos (h x (List.mem_cons_self x rest))]
    rw [hx]
    exact addToSetEach_of_subset (fun z hz => h z (List.mem_cons_of_mem _ hz))

theorem addToSetEach_idem (l xs : List Nat) :
    addToSetEach (addToSetEach l xs) xs = addToSetEach l xs :=
  addToSetEach_of_subset (fun _ hx => mem_addToSetEach.mpr (Or.inr hx))

theorem nodup_jsSetInsert {l : List Nat} {x : Nat} (h : l.Nodup) :
    (jsSetInsert l x).Nodup := by
  unfold jsSetInsert
  split
  · exact h
  · rename_i hx
    refine List.nodup_append.mpr ⟨h, List.nodup_singleton x, ?_⟩
    intro a ha hax
    rw [List.mem_singleton] at hax
    exact hx (hax ▸ ha)

theorem nodup_addToSetEach : ∀ (xs l : List Nat), l.Nodup → (addToSetEach l xs).Nodup
  | [], l, h => h
  | x :: rest, l, h => by
    unfold addToSetEach
    rw [List.foldl_cons]
    exact nodup_addToSetEach rest (jsSetInsert l x) (nodup_jsSetInsert h)

/-! ### `assign` component lemmas -/

theorem assign_users (st : SendState) (req : SendRequest) (fid : Nat) :
    (assign st req fid).1.users = st.users := by
  unfold assign
  split <;> rfl

theorem assign_contents (st : SendState) (req : SendRequest) (fid : Nat)
    (hne : req.userIds ≠ []) :
    (assign st req fid).1.contents =
      updateFirst (contentPred req)
        (fun c => { c with recipientIds := addToSetEach c.recipientIds req.userIds })
        st.contents := by
  unfold assign
  rw [if_neg (by simp [List.isEmpty_iff, hne])]

theorem assign_notifications (st : SendState) (req : SendRequest) (fid : Nat)
    (hne : req.userIds ≠ []) :
    (assign st req fid).1.notifications =
      st.notifications ++ newNotifications st req fid := by
  unfold assign
  rw [if_neg (by simp [List.isEmpty_iff, hne])]

theorem assign_resp (st : SendState) (req : SendRequest) (fid : Nat)
    (hne : req.userIds ≠ []) :
    (assign st req fid).2 = SendResp.ok (foundUsers st req).length := by
  unfold assign
  rw [if_neg (by simp [List.isEmpty_iff, hne])]

theorem foundUsers_assign (st : SendState) (req req' : SendRequest) (fid : Nat) :
    foundUsers (assign st req fid).1 req' = foundUsers st req' := by
  unfold foundUsers
  rw [assign_users]

theorem length_newNotifications (st : SendState) (req : SendRequest) (fid : Nat) :
    (newNotifications st req fid).length = (foundUsers st req).length := by
  unfold newNotifications
  rw [List.length_map, List.enum_length]

theorem contentPred_update (req : SendRequest) (c : ContentItem) :
    contentPred req { c with recipientIds := addToSetEach c.recipientIds req.userIds } =
      contentPred req c := rfl

/-! ### Claim C2 -/

/-- C2 counterexample: with no content item of the requested id in the
store, `assign` still reports success and inserts a Notification — the
operation neither fails nor leaves the store unchanged. -/
theorem assign_missing_content_cex :
    (assign ⟨[⟨1, "kid@x.com".data, Role.Student, [], false⟩], [], []⟩
        ⟨5, ContentType.event, [1], "s", "m"⟩ 100).2 = SendResp.ok 1 ∧
    (assign ⟨[⟨1, "kid@x.com".data, Role.Student, [], false⟩], [], []⟩
        ⟨5, ContentType.event, [1], "s", "m"⟩ 100).1.notifications =
      [⟨100, 1, "s", "m", false⟩] := by
  decide

/-- C2 (amended): when the requested content item does not exist and the
recipient list is non-empty, the operation still succeeds: the content
collection is left unchanged (the result of `findByIdAndUpdate` is never
checked, and the update is a no-op), Notifications are still inserted for
the requested ids that match existing accounts, and the response reports
success with that count. -/
theorem assign_missing_content (st : SendState) (req : SendRequest) (fid : Nat)
    (hne : req.userIds ≠ [])
    (hmiss : ∀ c ∈ st.contents, contentPred req c = false) :
    (assign st req fid).1.contents = st.contents ∧
    (assign st req fid).1.notifications =
      st.notifications ++ newNotifications st req fid ∧
    (assign st req fid).2 = SendResp.ok (foundUsers st req).length := by
  refine ⟨?_, assign_notifications st req fid hne, assign_resp st req fid hne⟩
  rw [assign_contents st req fid hne]
  exact updateFirst_eq_of_no_match hmiss

/-- Witness for the amended C2 at a concrete store with no matching
content item. -/
theorem assign_missing_content_witness :
    (assign ⟨[⟨1, "kid@x.com".data, Role.Student, [], false⟩], [], []⟩
        ⟨5, ContentType.event, [1], "s", "m"⟩ 100).1.contents =
      (⟨[⟨1, "kid@x.com".data, Role.Student, [], false⟩], [], []⟩ : SendState).contents ∧
    (assign ⟨[⟨1, "kid@x.com".data, Role.Student, [], false⟩], [], []⟩
        ⟨5, ContentType.event, [1], "s", "m"⟩ 100).1.notifications =
      (⟨[⟨1, "kid@x.com".data, Role.Student, [], false⟩], [], []⟩ : SendState).notifications ++
        newNotifications ⟨[⟨1, "kid@x.com".data, Role.Student, [], false⟩], [], []⟩
          ⟨5, ContentType.event, [1], "s", "m"⟩ 100 ∧
    (assign ⟨[⟨1, "kid@x.com".data, Role.Student, [], false⟩], [], []⟩
        ⟨5, ContentType.event, [1], "s", "m"⟩ 100).2 =
      SendResp.ok (foundUsers ⟨[⟨1, "kid@x.com".data, Role.Student, [], false⟩], [], []⟩
        ⟨5, ContentType.event, [1], "s", "m"⟩).length :=
  assign_missing_content _ _ 100 (by decide) (by decide)

/-! ### Claim C6 -/

/-- C6: calling `assign` twice with the same request gives the same final
recipient sets as one call (the `$addToSet` union absorbs the repeat, and
each requested id ends up in the item's recipient set exactly once), while
the Notification collection grows by one full wave per call. -/
theorem assign_twice (st : SendState) (req : SendRequest) (f1 f2 : Nat)
    (hne : req.userIds ≠ []) (c0 : ContentItem)
    (hfind : st.contents.find? (contentPred req) = some c0)
    (hnd : c0.recipientIds.Nodup) :
    (assign (assign st req f1).1 req f2).1.contents = (assign st req f1).1.contents ∧
    (∃ c1, (assign st req f1).1.contents.find? (contentPred req) = some c1 ∧
      ∀ x ∈ req.userIds, c1.recipientIds.count x = 1) ∧
    (assign (assign st req f1).1 req f2).1.notifications.length =
      st.notifications.length + 2 * (foundUsers st req).length := by
  have hPf : ∀ c : ContentItem,
      contentPred req { c with recipientIds := addToSetEach c.recipientIds req.userIds } =
        contentPred req c := fun c => rfl
  refine ⟨?_, ?_, ?_⟩
  · rw [assign_contents _ req f2 hne, assign_contents st req f1 hne,
      updateFirst_updateFirst hPf]
    exact updateFirst_congr (fun c _ =>
      congrArg (ContentItem.mk c.id c.ctype)
        (addToSetEach_idem c.recipientIds req.userIds))
  · refine ⟨{ c0 with recipientIds := addToSetEach c0.recipientIds req.userIds }, ?_, ?_⟩
    · rw [assign_contents st req f1 hne, find?_updateFirst hPf, hfind]
      rfl
    · intro x hx
      exact List.count_eq_one_of_mem
        (nodup_addToSetEach req.userIds c0.recipientIds hnd)
        (mem_addToSetEach.mpr (Or.inr hx))
  · rw [assign_notifications _ req f2 hne, assign_notifications st req f1 hne,
      List.length_append, List.length_append, length_newNotifications,
      length_newNotifications, foundUsers_assign]
    omega

/-- Witness for C6 at a concrete store and repeated request. -/
theorem assign_twice_witness :
    (assign (assign ⟨[⟨1, "kid@x.com".data, Role.Student, [], false⟩],
          [⟨5, ContentType.event, []⟩], []⟩
        ⟨5, ContentType.event, [1], "s", "m"⟩ 100).1
      ⟨5, ContentType.event, [1], "s", "m"⟩ 200).1.contents =
      (assign ⟨[⟨1, "kid@x.com".data, Role.Student, [], false⟩],
          [⟨5, ContentType.event, []⟩], []⟩
        ⟨5, ContentType.event, [1], "s", "m"⟩ 100).1.contents ∧
    (∃ c1, (assign ⟨[⟨1, "kid@x.com".data, Role.Student, [], false⟩],
          [⟨5, ContentType.event, []⟩], []⟩
        ⟨5, ContentType.event, [1], "s", "m"⟩ 100).1.contents.find?
          (contentPred ⟨5, ContentType.event, [1], "s", "m"⟩) = some c1 ∧
      ∀ x ∈ [1], c1.recipientIds.count x = 1) ∧
    (assign (assign ⟨[⟨1, "kid@x.com".data, Role.Student, [], false⟩],
          [⟨5, ContentType.event, []⟩], []⟩
        ⟨5, ContentType.event, [1], "s", "m"⟩ 100).1
      ⟨5, ContentType.event, [1], "s", "m"⟩ 200).1.notifications.length =
      ([] : List NotificationRec).length +
        2 * (foundUsers ⟨[⟨1, "kid@x.com".data, Role.Student, [], false⟩],
          [⟨5, ContentType.event, []⟩], []⟩
          ⟨5, ContentType.event, [1], "s", "m"⟩).length :=
  assign_twice _ _ 100 200 (by decide) ⟨5, ContentType.event, []⟩ (by decide) (by decide)

/-! ### Claim C10 -/

/-- C10: with a non-empty recipient list in which some (or all) ids match
no stored account, `assign` still reports success; every supplied id —
including the nonexistent ones — lands in the content item's recipient
set, and Notification records are created exactly for the ids matching
stored accounts. -/
theorem assign_partial_recipients (st : SendState) (req : SendRequest) (fid : Nat)
    (hne : req.userIds ≠ []) (c0 : ContentItem)
    (hfind : st.contents.find? (contentPred req) = some c0) :
    (assign st req fid).2 = SendResp.ok (foundUsers st req).length ∧
    ((newNotifications st req fid).map (fun n => n.userId) =
      (st.users.filter (fun u => req.userIds.contains u.id)).map (fun u => u.id)) ∧
    ∃ c1, (assign st req fid).1.contents.find? (contentPred req) = some c1 ∧
      ∀ x ∈ req.userIds, x ∈ c1.recipientIds := by
  refine ⟨assign_resp st req fid hne, ?_, ?_⟩
  · unfold newNotifications
    rw [List.map_map]
    show (foundUsers st req).enum.map (fun iu => iu.2.id) = _
    conv_rhs => rw [show (st.users.filter (fun u => req.userIds.contains u.id)) =
      foundUsers st req from rfl, ← List.enum_map_snd (foundUsers st req)]
    rw [List.map_map]
    rfl
  · have hPf : ∀ c : ContentItem,
        contentPred req { c with recipientIds := addToSetEach c.recipientIds req.userIds } =
          contentPred req c := fun c => rfl
    refine ⟨{ c0 with recipientIds := addToSetEach c0.recipientIds req.userIds }, ?_, ?_⟩
    · rw [assign_contents st req fid hne, find?_updateFirst hPf, hfind]
      rfl
    · intro x hx
      exact mem_addToSetEach.mpr (Or.inr hx)

/-- Witness for C10 with a recipient list containing only a nonexistent
account id. -/
theorem assign_partial_recipients_witness :
    (assign ⟨[⟨1, "kid@x.com".data, Role.Student, [], false⟩],
        [⟨5, ContentType.event, []⟩], []⟩
      ⟨5, ContentType.event, [99], "s", "m"⟩ 100).2 =
      SendResp.ok (foundUsers ⟨[⟨1, "kid@x.com".data, Role.Student, [], false⟩],
        [⟨5, ContentType.event, []⟩], []⟩
        ⟨5, ContentType.event, [99], "s", "m"⟩).length ∧
    ((newNotifications ⟨[⟨1, "kid@x.com".data, Role.Student, [], false⟩],
        [⟨5, ContentType.event, []⟩], []⟩
        ⟨5, ContentType.event, [99], "s", "m"⟩ 100).map (fun n => n.userId) =
      (([⟨1, "kid@x.com".data, Role.Student, [], false⟩] : List User).filter
        (fun u => [99].contains u.id)).map (fun u => u.id)) ∧
    ∃ c1, (assign ⟨[⟨1, "kid@x.com".data, Role.Student, [], false⟩],
        [⟨5, ContentType.event, []⟩], []⟩
      ⟨5, ContentType.event, [99], "s", "m"⟩ 100).1.contents.find?
        (contentPred ⟨5, ContentType.event, [99], "s", "m"⟩) = some c1 ∧
      ∀ x ∈ [99], x ∈ c1.recipientIds :=
  assign_partial_recipients _ _ 100 (by decide) ⟨5, ContentType.event, []⟩ (by decide)

/-! ### Account-scoped lookups: notification read and family student guard -/

inductive ReadResp where
  | ok (noteId : Nat)
  | notFound (msg : String)
  | forbidden (msg : String)
deriving DecidableEq, Repr

/-- The selector of `Notification.findOneAndUpdate({ _id, userId: { $in:
familyIds } })` used by the first server variant. -/
def notePredV1 (users : List User) (p : Principal) (target : Nat)
    (n : NotificationRec) : Bool :=
  n.id == target && (getFamilyMemberIds users p).contains n.userId

/-- `PUT /api/notifications/:id/read`, first server variant
(server.js:1239): one query selects by id AND family membership; a miss of
either kind produces the same 404 response. -/
def markNotificationReadV1 (users : List User) (notes : List NotificationRec)
    (p : Principal) (target : Nat) : List NotificationRec × ReadResp :=
  match notes.find? (notePredV1 users p target) with
  | some n =>
    (updateFirst (notePredV1 users p target) (fun m => { m with read := true }) notes,
     ReadResp.ok n.id)
  | none => (notes, ReadResp.notFound "Notification not found or not permitted.")

/-- `PUT /api/notifications/:id/read`, second server variant
(server.js:2179): `findById` first (404 when absent), then a family check
(403 when the owner is outside the resolved family). -/
def markNotificationReadV2 (users : List User) (notes : List NotificationRec)
    (p : Principal) (target : Nat) : List NotificationRec × ReadResp :=
  match notes.find? (fun n => n.id == target) with
  | none => (notes, ReadResp.notFound "Notification not found.")
  | some n =>
    if (getFamilyMemberIds users p).contains n.userId then
      (updateFirst (fun m => m.id == target) (fun m => { m with read := true }) notes,
       ReadResp.ok n.id)
    else (notes, ReadResp.forbidden "Forbidden")

inductive GuardResp where
  | allow (studentId : Nat)
  | forbidden (msg : String)
  | serverError (msg : String)
deriving DecidableEq, Repr

def forbiddenStudentMsg : String :=
  "Forbidden: You do not have permission to access this student data."

/-- `ensureStudentInFamily` (server.js:820): parse the principal email
(when it has no `'@'`, `emailParts[1]` is `undefined`, the regex
construction throws on `undefined.replace`, and the catch answers 500);
`findById` the target; answer one uniform 403 when the target is missing,
is not a Student, or does not match the family regex. -/
def ensureStudentInFamily (store : List User) (p : Principal) (targetId : Nat) :
    GuardResp :=
  if (emailParts p.email).length < 2 then
    GuardResp.serverError "Server error during authorization."
  else
    match store.find? (fun u => u.id == targetId) with
    | none => GuardResp.forbidden forbiddenStudentMsg
    | some student =>
      if student.role = Role.Student &&
          familyEmailMatch (emailBase p.email) (emailDomain p.email) student.email then
        GuardResp.allow student.id
      else GuardResp.forbidden forbiddenStudentMsg

/-! ### Claim C4 -/

/-- C4 counterexample: in the second server variant, marking a
notification read answers 403 "Forbidden" when the target exists outside
the principal's family but 404 "Notification not found." when the target
does not exist — the two observable responses differ. -/
theorem markNotificationReadV2_distinguishes_cex :
    (markNotificationReadV2
        [⟨1, "a@x.com".data, Role.Student, [], false⟩]
        [⟨10, 2, "s", "m", false⟩]
        ⟨1, "a@x.com".data, Role.Student⟩ 10).2 ≠
      (markNotificationReadV2
        [⟨1, "a@x.com".data, Role.Student, [], false⟩]
        [⟨10, 2, "s", "m", false⟩]
        ⟨1, "a@x.com".data, Role.Student⟩ 99).2 := by
  decide

/-- C4 (amended): the family student guard and the first variant's
notification-read handler answer one uniform response whether the target
is missing or exists outside the principal's resolved family (deny is
indistinguishable from not-found there); the second variant's
notification-read handler distinguishes the two cases. -/
theorem accountScopedLookup_uniform_deny (store : List User)
    (notes : List NotificationRec) (p : Principal) (target : Nat)
    (hn : ∀ n ∈ notes, n.id = target → n.userId ∉ getFamilyMemberIds store p)
    (hs : ∀ u ∈ store, u.id = target →
      ¬(u.role = Role.Student ∧
        familyEmailMatch (emailBase p.email) (emailDomain p.email) u.email = true))
    (hat : 2 ≤ (emailParts p.email).length) :
    (markNotificationReadV1 store notes p target).2 =
      ReadResp.notFound "Notification not found or not permitted." ∧
    ensureStudentInFamily store p target = GuardResp.forbidden forbiddenStudentMsg := by
  constructor
  · have hfind : notes.find? (notePredV1 store p target) = none := by
      rw [List.find?_eq_none]
      intro n hnmem hp
      simp only [notePredV1, Bool.and_eq_true] at hp
      obtain ⟨h1, h2⟩ := hp
      have hid : n.id = target := by simpa using h1
      have hm : n.userId ∈ getFamilyMemberIds store p := by simpa using h2
      exact hn n hnmem hid hm
    unfold markNotificationReadV1
    rw [hfind]
  · unfold ensureStudentInFamily
    rw [if_neg (by omega)]
    cases hfind : store.find? (fun u => u.id == target) with
    | none => rfl
    | some student =>
      have hmem := List.mem_of_find?_eq_some hfind
      have hid : student.id = target := by
        have h := List.find?_some hfind
        simpa using h
      dsimp only
      rw [if_neg ?hno]
      case hno =>
        intro hcond
        rcases Bool.and_eq_true _ _ |>.mp hcond with ⟨h1, h2⟩
        exact hs student hmem hid ⟨of_decide_eq_true h1, h2⟩

/-- Witness for the amended C4: one concrete store where the same uniform
responses are produced for an out-of-family notification and for a
nonexistent student lookup. -/
theorem accountScopedLookup_uniform_deny_witness :
    ((markNotificationReadV1
        [⟨1, "a@x.com".data, Role.Student, [], false⟩,
         ⟨2, "b@y.com".data, Role.Student, [], false⟩]
        [⟨10, 2, "s", "m", false⟩]
        ⟨1, "a@x.com".data, Role.Student⟩ 10).2 =
      ReadResp.notFound "Notification not found or not permitted." ∧
    ensureStudentInFamily
        [⟨1, "a@x.com".data, Role.Student, [], false⟩,
         ⟨2, "b@y.com".data, Role.Student, [], false⟩]
        ⟨1, "a@x.com".data, Role.Student⟩ 10 =
      GuardResp.forbidden forbiddenStudentMsg) ∧
    ((markNotificationReadV1
        [⟨1, "a@x.com".data, Role.Student, [], false⟩,
         ⟨2, "b@y.com".data, Role.Student, [], false⟩]
        [⟨10, 2, "s", "m", false⟩]
        ⟨1, "a@x.com".data, Role.Student⟩ 2).2 =
      ReadResp.notFound "Notification not found or not permitted." ∧
    ensureStudentInFamily
        [⟨1, "a@x.com".data, Role.Student, [], false⟩,
         ⟨2, "b@y.com".data, Role.Student, [], false⟩]
        ⟨1, "a@x.com".data, Role.Student⟩ 2 =
      GuardResp.forbidden forbiddenStudentMsg) :=
  ⟨accountScopedLookup_uniform_deny _ _ _ 10 (by decide) (by decide) (by decide),
   accountScopedLookup_uniform_deny _ _ _ 2 (by decide) (by decide) (by decide)⟩

/-! ### Billing cycle engine (`POST /api/admin/invoices/generate`) -/

/-- A calendar date as JavaScript `Date` components: `getFullYear()`,
`getMonth()` (0-based), `getDate()`. -/
structure SimpleDate where
  year : Nat
  month : Nat
  day : Nat
deriving DecidableEq, Repr

structure FeeStructure where
  id : Nat
  courseName : String
  amount : Int
  currency : String
  billingCycle : String
deriving DecidableEq, Repr

structure Invoice where
  studentId : Nat
  feeStructureId : Nat
  courseName : String
  amount : Int
  currency : String
  issueDate : SimpleDate
  dueDate : SimpleDate
  billingPeriod : String
  status : String
deriving DecidableEq, Repr

def monthNames : List String :=
  ["January", "February", "March", "April", "May", "June", "July", "August",
   "September", "October", "November", "December"]

/-- The billing period label, a template string interpolating
`monthNames[now.getMonth()]` and the year (an out-of-range month index
interpolates as "undefined", as in JavaScript). -/
def billingPeriodLabel (now : SimpleDate) : String :=
  monthNames.getD now.month "undefined" ++ " " ++ toString now.year

/-- `new Map(feeStructures.map(fs => [fs.courseName, fs]))` followed by
`map.get(courseName)`: the last structure with the course name wins. -/
def structuresMapGet (fss : List FeeStructure) (c : String) : Option FeeStructure :=
  fss.reverse.find? (fun fs => fs.courseName == c)

/-- The store touched by invoice generation. -/
structure BillState where
  users : List User
  feeStructures : List FeeStructure
  invoices : List Invoice
deriving DecidableEq, Repr

/-- The `Invoice.findOne({ studentId, feeStructureId, billingPeriod })`
selector. -/
def tripleMatch (sid fid : Nat) (bp : String) (i : Invoice) : Bool :=
  i.studentId == sid && i.feeStructureId == fid && i.billingPeriod == bp

/-- The invoice document created for a (student, fee structure) pair: a
Pending invoice with the due date pinned to the 15th of the issue month
and amount/currency/course-name copied from the fee structure. -/
def mkInvoice (s : User) (fs : FeeStructure) (now : SimpleDate) (bp : String) :
    Invoice :=
  { studentId := s.id, feeStructureId := fs.id, courseName := fs.courseName,
    amount := fs.amount, currency := fs.currency, issueDate := now,
    dueDate := ⟨now.year, now.month, 15⟩, billingPeriod := bp, status := "Pending" }

/-- One (student, course name) iteration of the generation loop: look up
the fee structure, require a Monthly cycle, and skip when an invoice for
the (student, structure, period) triple already exists in `orig`.  The
saves are pushed into a task list and awaited only after the loop
(`Promise.all`), so the in-loop existence check reads the invoice
collection as it was when the run started. -/
def genStep (orig : List Invoice) (fss : List FeeStructure) (now : SimpleDate)
    (bp : String) (sc : User × String) : Option Invoice :=
  match structuresMapGet fss sc.2 with
  | none => none
  | some fs =>
    if fs.billingCycle ≠ "Monthly" then none
    else if orig.any (tripleMatch sc.1.id fs.id bp) then none
    else some (mkInvoice sc.1 fs now bp)

/-- `User.find({ role: 'Student', courses: { $exists: true, $not: { $size:
0 } } })` — Students with a non-empty course list; there is no `isDeleted`
filter. -/
def billableStudents (users : List User) : List User :=
  users.filter (fun u => u.role = Role.Student && !u.courses.isEmpty)

/-- The iteration order of the two nested loops: every enrolled course of
every billable student. -/
def studentCoursePairs (users : List User) : List (User × String) :=
  (billableStudents users).flatMap (fun s => s.courses.map (fun c => (s, c)))

/-- The buffered `tasks` list of one generation run: the invoices created
by the loop, in iteration order. -/
def createdInvoices (now : SimpleDate) (st : BillState) : List Invoice :=
  (studentCoursePairs st.users).filterMap
    (genStep st.invoices st.feeStructures now (billingPeriodLabel now))

/-- `POST /api/admin/invoices/generate` (server.js:1162 and 2129): run the
nested loops, append the buffered saves, and answer with the number of
created invoices. -/
def generateInvoices (now : SimpleDate) (st : BillState) : BillState × Nat :=
  ({ st with invoices := st.invoices ++ createdInvoices now st },
   (createdInvoices now st).length)

example :
    (generateInvoices ⟨2025, 2, 3⟩
      ⟨[⟨1, "kid@x.com".data, Role.Student, ["Vocal"], false⟩],
       [⟨10, "Vocal", 500, "INR", "Monthly"⟩], []⟩) =
    (⟨[⟨1, "kid@x.com".data, Role.Student, ["Vocal"], false⟩],
      [⟨10, "Vocal", 500, "INR", "Monthly"⟩],
      [⟨1, 10, "Vocal", 500, "INR", ⟨2025, 2, 3⟩, ⟨2025, 2, 15⟩, "March 2025",
        "Pending"⟩]⟩, 1) := by
  decide

/-! ### Claim C7 -/

/-- C7 counterexample: a soft-deleted Student with an enrolled course and
a Monthly fee structure still receives an invoice — the student query has
no `isDeleted` filter. -/
theorem generateInvoices_deleted_student_cex :
    (generateInvoices ⟨2025, 2, 3⟩
      ⟨[⟨1, "kid@x.com".data, Role.Student, ["Vocal"], true⟩],
       [⟨10, "Vocal", 500, "INR", "Monthly"⟩], []⟩).2 = 1 ∧
    (generateInvoices ⟨2025, 2, 3⟩
      ⟨[⟨1, "kid@x.com".data, Role.Student, ["Vocal"], true⟩],
       [⟨10, "Vocal", 500, "INR", "Monthly"⟩], []⟩).1.invoices =
      [⟨1, 10, "Vocal", 500, "INR", ⟨2025, 2, 3⟩, ⟨2025, 2, 15⟩, "March 2025",
        "Pending"⟩] ∧
    (⟨1, "kid@x.com".data, Role.Student, ["Vocal"], true⟩ : User).isDeleted = true := by
  decide

/-- C7 (amended): every invoice added by a generation run belongs to a
stored Student — soft-deleted or not — with a non-empty course list, comes
from an enrolled course whose fee structure has a Monthly billing cycle,
and is a Pending invoice labelled with the "Month Year" period computed
from `now`, due on the 15th of the issue month, with amount, currency and
course name copied from the fee structure. -/
theorem generateInvoices_created_shape (now : SimpleDate) (st : BillState)
    (inv : Invoice) (hmem : inv ∈ (generateInvoices now st).1.invoices)
    (hnew : inv ∉ st.invoices) :
    ∃ s ∈ st.users, s.role = Role.Student ∧ s.courses ≠ [] ∧
      ∃ c ∈ s.courses, ∃ fs, structuresMapGet st.feeStructures c = some fs ∧
        fs.billingCycle = "Monthly" ∧
        inv = mkInvoice s fs now (billingPeriodLabel now) ∧
        inv.status = "Pending" ∧
        inv.billingPeriod = billingPeriodLabel now ∧
        inv.dueDate = ⟨now.year, now.month, 15⟩ ∧
        inv.issueDate = now ∧
        inv.amount = fs.amount ∧ inv.currency = fs.currency ∧
        inv.courseName = fs.courseName ∧ inv.studentId = s.id ∧
        inv.feeStructureId = fs.id := by
  unfold generateInvoices at hmem
  rw [List.mem_append] at hmem
  rcases hmem with hold | hnewmem
  · exact absurd hold hnew
  · unfold createdInvoices at hnewmem
    rw [List.mem_filterMap] at hnewmem
    obtain ⟨sc, hsc, hstep⟩ := hnewmem
    unfold studentCoursePairs at hsc
    rw [List.mem_flatMap] at hsc
    obtain ⟨s, hsmem, hpair⟩ := hsc
    rw [List.mem_map] at hpair
    obtain ⟨c, hc, hpeq⟩ := hpair
    unfold billableStudents at hsmem
    rw [List.mem_filter] at hsmem
    obtain ⟨hsu, hcond⟩ := hsmem
    rw [Bool.and_eq_true] at hcond
    obtain ⟨hrole, hne⟩ := hcond
    have hrole' : s.role = Role.Student := of_decide_eq_true hrole
    have hne' : s.courses ≠ [] := by
      intro h
      rw [h] at hne
      simp at hne
    unfold genStep at hstep
    rw [← hpeq] at hstep
    cases hlook : structuresMapGet st.feeStructures c with
    | none => rw [hlook] at hstep; exact absurd hstep (by simp)
    | some fs =>
      rw [hlook] at hstep
      dsimp only at hstep
      by_cases hcyc : fs.billingCycle ≠ "Monthly"
      · rw [if_pos hcyc] at hstep
        exact absurd hstep (by simp)
      · rw [if_neg hcyc] at hstep
        by_cases hex : st.invoices.any
            (tripleMatch s.id fs.id (billingPeriodLabel now)) = true
        · rw [if_pos hex] at hstep
          exact absurd hstep (by simp)
        · rw [if_neg hex] at hstep
          have hinv : inv = mkInvoice s fs now (billingPeriodLabel now) :=
            (Option.some.injEq _ _ ▸ hstep).symm
          refine ⟨s, hsu, hrole', hne', c, hc, fs, hlook, not_not.mp hcyc, hinv,
            ?_, ?_, ?_, ?_, ?_, ?_, ?_, ?_, ?_⟩ <;> rw [hinv] <;> rfl

/-- Witness for the amended C7 at the concrete soft-deleted-student
store. -/
theorem generateInvoices_created_shape_witness :
    ∃ s ∈ [(⟨1, "kid@x.com".data, Role.Student, ["Vocal"], true⟩ : User)],
      s.role = Role.Student ∧ s.courses ≠ [] ∧
      ∃ c ∈ s.courses, ∃ fs,
        structuresMapGet [⟨10, "Vocal", 500, "INR", "Monthly"⟩] c = some fs ∧
        fs.billingCycle = "Monthly" ∧
        (⟨1, 10, "Vocal", 500, "INR", ⟨2025, 2, 3⟩, ⟨2025, 2, 15⟩, "March 2025",
          "Pending"⟩ : Invoice) = mkInvoice s fs ⟨2025, 2, 3⟩
            (billingPeriodLabel ⟨2025, 2, 3⟩) ∧
        (⟨1, 10, "Vocal", 500, "INR", ⟨2025, 2, 3⟩, ⟨2025, 2, 15⟩, "March 2025",
          "Pending"⟩ : Invoice).status = "Pending" ∧
        (⟨1, 10, "Vocal", 500, "INR", ⟨2025, 2, 3⟩, ⟨2025, 2, 15⟩, "March 2025",
          "Pending"⟩ : Invoice).billingPeriod = billingPeriodLabel ⟨2025, 2, 3⟩ ∧
        (⟨1, 10, "Vocal", 500, "INR", ⟨2025, 2, 3⟩, ⟨2025, 2, 15⟩, "March 2025",
          "Pending"⟩ : Invoice).dueDate = ⟨2025, 2, 15⟩ ∧
        (⟨1, 10, "Vocal", 500, "INR", ⟨2025, 2, 3⟩, ⟨2025, 2, 15⟩, "March 2025",
          "Pending"⟩ : Invoice).issueDate = ⟨2025, 2, 3⟩ ∧
        (⟨1, 10, "Vocal", 500, "INR", ⟨2025, 2, 3⟩, ⟨2025, 2, 15⟩, "March 2025",
          "Pending"⟩ : Invoice).amount = fs.amount ∧
        (⟨1, 10, "Vocal", 500, "INR", ⟨2025, 2, 3⟩, ⟨2025, 2, 15⟩, "March 2025",
          "Pending"⟩ : Invoice).currency = fs.currency ∧
        (⟨1, 10, "Vocal", 500, "INR", ⟨2025, 2, 3⟩, ⟨2025, 2, 15⟩, "March 2025",
          "Pending"⟩ : Invoice).courseName = fs.courseName ∧
        (⟨1, 10, "Vocal", 500, "INR", ⟨2025, 2, 3⟩, ⟨2025, 2, 15⟩, "March 2025",
          "Pending"⟩ : Invoice).studentId = s.id ∧
        (⟨1, 10, "Vocal", 500, "INR", ⟨2025, 2, 3⟩, ⟨2025, 2, 15⟩, "March 2025",
          "Pending"⟩ : Invoice).feeStructureId = fs.id :=
  generateInvoices_created_shape ⟨2025, 2, 3⟩
    ⟨[⟨1, "kid@x.com".data, Role.Student, ["Vocal"], true⟩],
     [⟨10, "Vocal", 500, "INR", "Monthly"⟩], []⟩
    ⟨1, 10, "Vocal", 500, "INR", ⟨2025, 2, 3⟩, ⟨2025, 2, 15⟩, "March 2025", "Pending"⟩
    (by decide) (by decide)

/-! ### Generation-run lemmas for claim C1 -/

theorem structuresMapGet_mem {fss : List FeeStructure} {c : String}
    {fs : FeeStructure} (h : structuresMapGet fss c = some fs) :
    fs ∈ fss ∧ fs.courseName = c := by
  unfold structuresMapGet at h
  refine ⟨List.mem_reverse.mp (List.mem_of_find?_eq_some h), ?_⟩
  have := List.find?_some h
  simpa using this

theorem genStep_some_elim {orig : List Invoice} {fss : List FeeStructure}
    {now : SimpleDate} {bp : String} {sc : User × String} {inv : Invoice}
    (h : genStep orig fss now bp sc = some inv) :
    ∃ fs, structuresMapGet fss sc.2 = some fs ∧ fs.billingCycle = "Monthly" ∧
      orig.any (tripleMatch sc.1.id fs.id bp) = false ∧
      inv = mkInvoice sc.1 fs now bp := by
  unfold genStep at h
  cases hlook : structuresMapGet fss sc.2 with
  | none => rw [hlook] at h; exact absurd h (by simp)
  | some fs =>
    rw [hlook] at h
    dsimp only at h
    by_cases hcyc : fs.billingCycle ≠ "Monthly"
    · rw [if_pos hcyc] at h
      exact absurd h (by simp)
    · rw [if_neg hcyc] at h
      by_cases hex : orig.any (tripleMatch sc.1.id fs.id bp) = true
      · rw [if_pos hex] at h
        exact absurd h (by simp)
      · rw [if_neg hex] at h
        exact ⟨fs, rfl, not_not.mp hcyc, Bool.eq_false_iff.mpr hex,
          (Option.some.inj h).symm⟩

theorem genStep_monthly_intro {orig : List Invoice} {fss : List FeeStructure}
    (now : SimpleDate) {bp : String} {sc : User × String} {fs : FeeStructure}
    (hlook : structuresMapGet fss sc.2 = some fs)
    (hcyc : fs.billingCycle = "Monthly")
    (hex : orig.any (tripleMatch sc.1.id fs.id bp) = false) :
    genStep orig fss now bp sc = some (mkInvoice sc.1 fs now bp) := by
  unfold genStep
  rw [hlook]
  dsimp only
  rw [if_neg (by simp [hcyc]), if_neg (by simp [hex])]

theorem tripleMatch_mkInvoice (s : User) (fs : FeeStructure) (now : SimpleDate)
    (bp : String) :
    tripleMatch s.id fs.id bp (mkInvoice s fs now bp) = true := by
  simp [tripleMatch, mkInvoice]

/-- After one run, every pair the loop would create an invoice for already
has its invoice in the store, so an immediate second run creates
nothing. -/
theorem generateInvoices_second_run_zero (now : SimpleDate) (st : BillState) :
    (generateInvoices now (generateInvoices now st).1).2 = 0 := by
  show ((createdInvoices now (generateInvoices now st).1)).length = 0
  rw [List.length_eq_zero]
  unfold createdInvoices
  rw [List.filterMap_eq_nil_iff]
  intro sc hsc
  have husers : (generateInvoices now st).1.users = st.users := rfl
  have hfss : (generateInvoices now st).1.feeStructures = st.feeStructures := rfl
  have hinvs : (generateInvoices now st).1.invoices =
      st.invoices ++ createdInvoices now st := rfl
  rw [husers] at hsc
  rw [hfss, hinvs]
  unfold genStep
  cases hlook : structuresMapGet st.feeStructures sc.2 with
  | none => rfl
  | some fs =>
    dsimp only
    by_cases hcyc : fs.billingCycle ≠ "Monthly"
    · rw [if_pos hcyc]
    · rw [if_neg hcyc]
      have hany : (st.invoices ++ createdInvoices now st).any
          (tripleMatch sc.1.id fs.id (billingPeriodLabel now)) = true := by
        rw [List.any_append]
        by_cases hex : st.invoices.any
            (tripleMatch sc.1.id fs.id (billingPeriodLabel now)) = true
        · rw [hex]
          rfl
        · have hstep := genStep_monthly_intro now hlook (not_not.mp hcyc)
            (Bool.eq_false_iff.mpr hex)
          have hmemc : mkInvoice sc.1 fs now (billingPeriodLabel now) ∈
              createdInvoices now st := by
            unfold createdInvoices
            rw [List.mem_filterMap]
            exact ⟨sc, hsc, hstep⟩
          have h2 : (createdInvoices now st).any
              (tripleMatch sc.1.id fs.id (billingPeriodLabel now)) = true :=
            List.any_eq_true.mpr ⟨_, hmemc, tripleMatch_mkInvoice sc.1 fs now _⟩
          rw [h2, Bool.or_true]
      rw [if_pos hany]

theorem countP_filterMap {α β : Type} (f : α → Option β) (p : β → Bool) :
    ∀ l : List α, (l.filterMap f).countP p =
      l.countP (fun a => ((f a).map p).getD false)
  | [] => rfl
  | a :: l => by
    rw [List.filterMap_cons, List.countP_cons]
    cases hf : f a with
    | none =>
      rw [countP_filterMap f p l]
      simp [hf]
    | some b =>
      rw [List.countP_cons, countP_filterMap f p l]
      simp [hf]

theorem countP_le_one_of_unique {α β : Type} [DecidableEq β] {Q : α → Bool}
    {k : α → β} :
    ∀ {l : List α}, (l.map k).Nodup →
      (∀ a b, Q a = true → Q b = true → k a = k b) → l.countP Q ≤ 1
  | [], _, _ => by simp
  | a :: l, hnd, huniq => by
    rw [List.map_cons, List.nodup_cons] at hnd
    obtain ⟨hka, hnd'⟩ := hnd
    rw [List.countP_cons]
    by_cases hQ : Q a = true
    · have hz : l.countP Q = 0 := by
        rw [List.countP_eq_zero]
        intro b hb hQb
        exact hka (List.mem_map.mpr ⟨b, hb, (huniq b a hQb hQ)⟩)
      rw [hz, if_pos hQ]
    · rw [if_neg hQ]
      have := countP_le_one_of_unique hnd' huniq
      omega

/-- The key that determines an invoice triple within one run: the student
id and the course name of the originating loop iteration. -/
def pairKey (sc : User × String) : Nat × String :=
  (sc.1.id, sc.2)

theorem nodup_pairs_key (users : List User)
    (hu : (users.map (fun u => u.id)).Nodup)
    (hc : ∀ u ∈ users, u.courses.Nodup) :
    ((studentCoursePairs users).map pairKey).Nodup := by
  unfold studentCoursePairs
  rw [List.map_flatMap]
  have hbu : (billableStudents users).map (fun u => u.id) |>.Nodup :=
    List.Nodup.sublist (List.Sublist.map _ (List.filter_sublist users)) hu
  rw [List.nodup_flatMap]
  constructor
  · intro s hs
    rw [List.map_map]
    have hcs : s.courses.Nodup :=
      hc s (List.mem_of_mem_filter hs)
    exact List.Nodup.map (fun c1 c2 h => congrArg Prod.snd h) hcs
  · have hpw : List.Pairwise (fun a b : User => a.id ≠ b.id) (billableStudents users) :=
      List.pairwise_map.mp hbu
    refine hpw.imp ?_
    intro a b hab
    intro x hxa hxb
    simp only [List.map_map, List.mem_map] at hxa hxb
    obtain ⟨c1, _, he1⟩ := hxa
    obtain ⟨c2, _, he2⟩ := hxb
    apply hab
    have : (a.id, c1) = (b.id, c2) := by
      rw [show ((pairKey ∘ fun c => (a, c)) c1) = (a.id, c1) from rfl] at he1
      rw [show ((pairKey ∘ fun c => (b, c)) c2) = (b.id, c2) from rfl] at he2
      rw [he1, he2]
    exact (Prod.mk.injEq _ _ _ _ |>.mp this).1

theorem countP_created_le_one (now : SimpleDate) (st : BillState)
    (sid fid : Nat) (bp : String)
    (hu : (st.users.map (fun u => u.id)).Nodup)
    (hf : (st.feeStructures.map (fun fs => fs.id)).Nodup)
    (hc : ∀ u ∈ st.users, u.courses.Nodup) :
    (createdInvoices now st).countP (tripleMatch sid fid bp) ≤ 1 := by
  unfold createdInvoices
  rw [countP_filterMap]
  refine countP_le_one_of_unique (k := pairKey) (nodup_pairs_key st.users hu hc) ?_
  intro a b hQa hQb
  have unpack : ∀ sc : User × String,
      ((genStep st.invoices st.feeStructures now (billingPeriodLabel now) sc).map
        (tripleMatch sid fid bp)).getD false = true →
      ∃ fs, structuresMapGet st.feeStructures sc.2 = some fs ∧
        sc.1.id = sid ∧ fs.id = fid := by
    intro sc hQ
    cases hstep : genStep st.invoices st.feeStructures now (billingPeriodLabel now) sc with
    | none => rw [hstep] at hQ; exact absurd hQ (by simp)
    | some inv =>
      rw [hstep] at hQ
      have hQ' : tripleMatch sid fid bp inv = true := by simpa using hQ
      obtain ⟨fs, hlook, _, _, hinv⟩ := genStep_some_elim hstep
      rw [hinv] at hQ'
      simp only [tripleMatch, mkInvoice, Bool.and_eq_true, beq_iff_eq] at hQ'
      exact ⟨fs, hlook, hQ'.1.1, hQ'.1.2⟩
  obtain ⟨fsa, hlka, hsa, hia⟩ := unpack a hQa
  obtain ⟨fsb, hlkb, hsb, hib⟩ := unpack b hQb
  have hma := structuresMapGet_mem hlka
  have hmb := structuresMapGet_mem hlkb
  have hfs : fsa = fsb :=
    List.inj_on_of_nodup_map hf hma.1 hmb.1 (by rw [hia, hib])
  unfold pairKey
  rw [hsa, hsb, ← hma.2, ← hmb.2, hfs]

/-! ### Claim C1 -/

/-- C1 counterexample: a student whose course list contains the same
course twice gets two invoices for the same (student, fee-structure,
period) triple in a single run, because the in-loop existence check reads
the collection as it was when the run started while the two saves are
buffered; the claim's "never more than one invoice per triple" fails after
just one run (the second run still creates nothing). -/
theorem generateInvoices_duplicate_course_cex :
    ((generateInvoices ⟨2025, 0, 1⟩
      ⟨[⟨1, "kid@x.com".data, Role.Student, ["Vocal", "Vocal"], false⟩],
       [⟨10, "Vocal", 500, "INR", "Monthly"⟩], []⟩).1.invoices.countP
        (tripleMatch 1 10 "January 2025") = 2) ∧
    (generateInvoices ⟨2025, 0, 1⟩
      (generateInvoices ⟨2025, 0, 1⟩
        ⟨[⟨1, "kid@x.com".data, Role.Student, ["Vocal", "Vocal"], false⟩],
         [⟨10, "Vocal", 500, "INR", "Monthly"⟩], []⟩).1).2 = 0 := by
  decide

/-- C1 (amended): provided user ids and fee-structure ids are distinct, no
student's course list repeats a course name, and the store starts with at
most one invoice per (student, fee-structure, period) triple, a generation
run preserves that bound; and an immediate second run with no intervening
state change creates zero new invoices (the latter holds
unconditionally).  Without the no-duplicate-course hypothesis a single run
can create two invoices for one triple. -/
theorem generateInvoices_idempotent (now : SimpleDate) (st : BillState)
    (hu : (st.users.map (fun u => u.id)).Nodup)
    (hf : (st.feeStructures.map (fun fs => fs.id)).Nodup)
    (hc : ∀ u ∈ st.users, u.courses.Nodup)
    (hinv : ∀ sid fid bp, st.invoices.countP (tripleMatch sid fid bp) ≤ 1) :
    (∀ sid fid bp,
      (generateInvoices now st).1.invoices.countP (tripleMatch sid fid bp) ≤ 1) ∧
    (generateInvoices now (generateInvoices now st).1).2 = 0 := by
  refine ⟨?_, generateInvoices_second_run_zero now st⟩
  intro sid fid bp
  have hsplit : (generateInvoices now st).1.invoices =
      st.invoices ++ createdInvoices now st := rfl
  rw [hsplit, List.countP_append]
  by_cases hz : (createdInvoices now st).countP (tripleMatch sid fid bp) = 0
  · rw [hz]
    have := hinv sid fid bp
    omega
  · have hpos : 0 < (createdInvoices now st).countP (tripleMatch sid fid bp) :=
      Nat.pos_of_ne_zero hz
    obtain ⟨inv, hmemc, hp⟩ := List.countP_pos_iff.mp hpos
    have hz2 : st.invoices.countP (tripleMatch sid fid bp) = 0 := by
      unfold createdInvoices at hmemc
      rw [List.mem_filterMap] at hmemc
      obtain ⟨sc, hsc, hstep⟩ := hmemc
      obtain ⟨fs, hlook, hcyc, hex, hinveq⟩ := genStep_some_elim hstep
      rw [hinveq] at hp
      simp only [tripleMatch, mkInvoice, Bool.and_eq_true, beq_iff_eq] at hp
      obtain ⟨⟨hps, hpf⟩, hpb⟩ := hp
      rw [List.countP_eq_zero]
      intro i hi hti
      rw [← hps, ← hpf, ← hpb] at hti
      exact (List.any_eq_false.mp hex) i hi hti
    rw [hz2]
    have := countP_created_le_one now st sid fid bp hu hf hc
    omega

/-- Witness for the amended C1 at a concrete one-student store. -/
theorem generateInvoices_idempotent_witness :
    (∀ sid fid bp,
      (generateInvoices ⟨2025, 0, 1⟩
        ⟨[⟨1, "kid@x.com".data, Role.Student, ["Vocal"], false⟩],
         [⟨10, "Vocal", 500, "INR", "Monthly"⟩], []⟩).1.invoices.countP
          (tripleMatch sid fid bp) ≤ 1) ∧
    (generateInvoices ⟨2025, 0, 1⟩
      (generateInvoices ⟨2025, 0, 1⟩
        ⟨[⟨1, "kid@x.com".data, Role.Student, ["Vocal"], false⟩],
         [⟨10, "Vocal", 500, "INR", "Monthly"⟩], []⟩).1).2 = 0 :=
  generateInvoices_idempotent ⟨2025, 0, 1⟩
    ⟨[⟨1, "kid@x.com".data, Role.Student, ["Vocal"], false⟩],
     [⟨10, "Vocal", 500, "INR", "Monthly"⟩], []⟩
    (by decide) (by decide) (by decide) (fun _ _ _ => by simp)

/-! ### Registration and admin account creation -/

inductive CreateResp where
  | badRequest (msg : String)
  | conflict (msg : String)
  | created
deriving DecidableEq, Repr

/-- `POST /api/admin/users` (first server variant, server.js:912): the
duplicate check runs against the LOWER-CASED request email, but the saved
document keeps the email exactly as sent (the second variant, server.js
line 1983, lower-cases on save; this one does not).  The unique index on
`email` additionally rejects an exact duplicate at save time
(`error.code === 11000`). -/
def adminCreateUser (store : List User) (newId : Nat) (email : List Char)
    (role : Role) : List User × CreateResp :=
  if email.isEmpty then (store, CreateResp.badRequest "Email is required.")
  else if store.any (fun u => u.email = email.map Char.toLower) then
    (store, CreateResp.conflict "This email is already in use.")
  else if store.any (fun u => u.email = email) then
    (store, CreateResp.conflict "This email is already in use.")
  else (store ++ [{ id := newId, email := email, role := role }], CreateResp.created)

inductive RegResp where
  | created
  | error (msg : String)
deriving DecidableEq, Repr

/-- One entry of the registration request array (the fields the verified
logic reads; `newId` stands for the Mongo-assigned `_id`). -/
structure RegReq where
  newId : Nat
  email : List Char
  role : Role
deriving DecidableEq, Repr

/-- The account-store effect of `POST /api/register` (server.js:564):
request emails are lower-cased; duplicates inside the request are
rejected; an exact match of any lower-cased request email against a
stored email — soft-deleted accounts included, the query has no
`isDeleted` filter — aborts the transaction; otherwise every user is
saved with the lower-cased email.  Admin notification and mail side
effects are outside the verified state. -/
def registerUsers (store : List User) (reqs : List RegReq) :
    List User × RegResp :=
  if reqs.isEmpty then
    (store, RegResp.error "Registration data must be a non-empty array of users.")
  else if (jsSetOfList (reqs.map (fun r => r.email.map Char.toLower))).length ≠
      (reqs.map (fun r => r.email.map Char.toLower)).length then
    (store, RegResp.error "Duplicate emails found in the registration request.")
  else if store.any (fun u =>
      (reqs.map (fun r => r.email.map Char.toLower)).contains u.email) then
    (store, RegResp.error "The email is already registered.")
  else
    (store ++ reqs.map (fun r =>
      { id := r.newId, email := r.email.map Char.toLower, role := r.role }),
     RegResp.created)

/-! ### Claim C9 -/

/-- C9: evaluating the creation paths at the failing input.  The admin
route accepts "Bob@x.com" (its duplicate check looks only for
"bob@x.com") and stores it verbatim; a registration with "bob@x.com" then
passes its exact-match uniqueness check and commits, leaving two accounts
with distinct ids and case-insensitively equal emails — the claimed
invariant is violated.  The last conjunct shows the part of the claim the
code does satisfy: registering the exact email of a soft-deleted account
fails. -/
theorem emailUniqueness_case_collision_cex :
    ((adminCreateUser [] 1 "Bob@x.com".data Role.Student).2 = CreateResp.created) ∧
    ((registerUsers (adminCreateUser [] 1 "Bob@x.com".data Role.Student).1
        [⟨2, "bob@x.com".data, Role.Student⟩]).2 = RegResp.created) ∧
    (∃ u1 ∈ (registerUsers (adminCreateUser [] 1 "Bob@x.com".data Role.Student).1
        [⟨2, "bob@x.com".data, Role.Student⟩]).1,
      ∃ u2 ∈ (registerUsers (adminCreateUser [] 1 "Bob@x.com".data Role.Student).1
        [⟨2, "bob@x.com".data, Role.Student⟩]).1,
        u1.id ≠ u2.id ∧ u1.email ≠ u2.email ∧
          u1.email.map Char.toLower = u2.email.map Char.toLower) ∧
    ((registerUsers [⟨1, "mom@x.com".data, Role.Student, [], true⟩]
        [⟨2, "mom@x.com".data, Role.Student⟩]).2 ≠ RegResp.created) := by
  decide

end Nadanaloga
